import Mathlib

deriving instance DecidableEq for Except

/-!
Verification development for the soa-ilec workspace versioning and
isolated-execution engine.

The definitions below are a shallow embedding of the Python sources:

* `src/common/audit.py` — `AuditLogReader` (lineage reconstruction from
  pointer records and audit entries) and `AuditLogEntry` (audit writer);
* `src/mcp/ilec_r_lib.py` — `ILECREnvironment.__enter__` (workspace fork),
  `run_target` (the child worker) and `AgentRCommands.run_command`
  (the parent side of the isolated command executor);
* `src/mcp/ilec_mcp_server.py` — `create_REnv` and the `cmd_*` tools.

Filesystem state is modelled explicitly: a workspace directory is a `WDir`
(the content of its `workspace_pointer.txt`, stripped, plus an optional
parsed `tool_call.json`), and the storage area is a lookup function
`FS : String → Option WDir` keyed by workspace id, mirroring the way
`_get_node_type` / `_get_node_log` open files at paths built from the id.
Raised Python exceptions are modelled as `Except.error` carrying the
exception message.
-/

namespace ILEC

/-- One `tool_call.json` record, as written by `AuditLogEntry._create_log_entry`
(`src/common/audit.py` lines 273-281): parent workspace id, this workspace id,
tool name, arguments and an opaque result payload (a JSON object modelled as an
association list; the empty object `{}` is `[]`). -/
structure LogEntry where
  last_workspace_id : String
  workspace_id : String
  tool_name : String
  args : List String
  result : List (String × String)
deriving DecidableEq

/-- `AuditLogEntry._create_log_entry(last_workspace_id, workspace_id, tool_name, args, result)`. -/
def create_log_entry (last this tool : String) (args : List String)
    (result : List (String × String)) : LogEntry :=
  { last_workspace_id := last
    workspace_id := this
    tool_name := tool
    args := args
    result := result }

/-- A workspace directory on disk: the stripped content of its
`workspace_pointer.txt` (every workspace created by `ILECREnvironment.__enter__`
carries exactly one) and the parsed `tool_call.json`, when that file exists. -/
structure WDir where
  ptr : String
  toolCall : Option LogEntry
deriving DecidableEq

/-- The storage area (the lineage's work directory): workspace id to directory.
`none` models a missing `workspace_<id>` directory. -/
def FS : Type := String → Option WDir

/-- Characters accepted by the id groups of `PTR_PATTERN`
(`^"([A-Za-z0-9-]+)"->"([A-Za-z0-9-]+)"$`, `src/common/audit.py` line 14). -/
def isIdChar (c : Char) : Bool := c.isAlpha || c.isDigit || c == '-'

/-- `PTR_PATTERN.search` on a stripped pointer string: a quoted id, the arrow
`->`, a quoted id, and nothing else.  Returns the two captured groups. -/
def parsePtrChars : List Char → Option (String × String)
  | '"' :: rest =>
    let a := rest.takeWhile isIdChar
    let r1 := rest.dropWhile isIdChar
    if a.isEmpty then none else
      match r1 with
      | '"' :: '-' :: '>' :: '"' :: r2 =>
        let b := r2.takeWhile isIdChar
        let r3 := r2.dropWhile isIdChar
        if b.isEmpty then none else
          match r3 with
          | ['"'] => some (String.mk a, String.mk b)
          | _ => none
      | _ => none
  | _ => none

/-- Parse a pointer-record edge `"parent"->"child"`. -/
def parsePtr (s : String) : Option (String × String) := parsePtrChars s.data

/-- Node types: `AuditLogReader.NODE_TYPE_ROOT = 1`, `NODE_TYPE_CHILD = 2`. -/
inductive NodeType where
  | root
  | child
deriving DecidableEq

/-- `AuditLogReader.MAX_DEPTH` (`src/common/audit.py` line 20). -/
def MAX_DEPTH : Nat := 1000

/-- `AuditLogReader._get_node_type` (lines 178-182): open the workspace's
`workspace_pointer.txt` and classify by whether its stripped content is
`"root"`.  A missing directory makes the `open` raise. -/
def get_node_type (fs : FS) (wid : String) : Except String NodeType :=
  match fs wid with
  | none => .error ("FileNotFoundError: workspace_" ++ wid ++ "/workspace_pointer.txt")
  | some d => .ok (if d.ptr = "root" then .root else .child)

/-- `AuditLogReader._get_node_log` (lines 184-213): return the parsed
`tool_call.json` when present; otherwise build a stand-in entry (tool name
`"unknown"`, empty args and result) from the edge encoded in
`workspace_pointer.txt`, raising when that pointer does not parse; raise when
the directory itself is missing (neither file exists). -/
def get_node_log (fs : FS) (wid : String) : Except String LogEntry :=
  match fs wid with
  | none => .error "No tool_call or workspace pointer in \x7b\x7d"
  | some d =>
    match d.toolCall with
    | some tc => .ok tc
    | none =>
      match parsePtr d.ptr with
      | some pc => .ok (create_log_entry pc.1 pc.2 "unknown" [] [])
      | none => .error ("Invalid workspace_pointer.txt: " ++ wid)

/-- The nested traversal dictionary built by `AuditLogReader._traverse_branch`
(lines 147-176): each level carries the node's id, type, optional audit entry
and the `"next"` pointer — `.last` when `"next"` is `None` (the node built at
`tot_depth == 0`, i.e. the leaf), `.node` otherwise. -/
inductive Chain where
  | last (wid : String) (ty : NodeType) (entry : Option LogEntry)
  | node (wid : String) (ty : NodeType) (entry : Option LogEntry) (next : Chain)
deriving DecidableEq

/-- The workspace ids of a traversal chain, outermost first.  On a chain
returned by `_traverse_branch` this lists the branch from the root down to
the leaf. -/
def chainIds : Chain → List String
  | .last w _ _ => [w]
  | .node w _ _ c => w :: chainIds c

/-- Ids accumulated so far in a partially built traversal. -/
def accIds : Option Chain → List String
  | none => []
  | some c => chainIds c

/-- The loop of `_traverse_branch`.  `fuel` is `MAX_DEPTH - tot_depth`;
`ct` is `curr_node_type` (initialised to `0` in Python, which only ever flows
into the `!= NODE_TYPE_ROOT` test, so any non-root value is faithful);
`acc` is the `traversal` accumulator, `none` standing for the initial `{}`
that is only ever replaced before being read (at `tot_depth == 0` the code
stores `None` as `"next"` regardless of `traversal`).

When fuel is exhausted, `tot_depth >= MAX_DEPTH` holds after the loop and the
code raises — even when the node just processed was the root.  When the loop
stops because `ct` is root with fuel remaining, the accumulated traversal is
returned. -/
def branch_loop (fs : FS) : Nat → NodeType → String → Option Chain → Except String Chain
  | 0, _, _, _ => .error "Max depth reached while scanning for root"
  | n + 1, ct, curr, acc =>
    match ct with
    | .root =>
      match acc with
      | some c => .ok c
      | none => .error "model: loop entered with root type before any iteration"
    | .child => do
      let t ← get_node_type fs curr
      let e ← match t with
        | .child => (get_node_log fs curr).map some
        | .root => .ok (none : Option LogEntry)
      let nd : Chain := match acc with
        | none => .last curr t e
        | some c => .node curr t e c
      let curr' : String := match t, e with
        | .child, some en => en.last_workspace_id
        | _, _ => curr
      branch_loop fs n t curr' (some nd)

/-- `AuditLogReader._traverse_branch(leaf_workspace_id)`. -/
def traverse_branch (fs : FS) (leaf : String) : Except String Chain :=
  branch_loop fs MAX_DEPTH .child leaf none

/-- Pure specification of the backward walk: `purePath fs n x = some l` when,
starting at `x` and following `last_workspace_id` fields of the audit entries
(or their stand-ins), a root-typed workspace is reached within `n` visited
nodes, every lookup on the way succeeding; `l` is the visit list, leaf first,
root last. -/
def purePath (fs : FS) : Nat → String → Option (List String)
  | 0, _ => none
  | n + 1, x =>
    match get_node_type fs x with
    | .ok .root => some [x]
    | .ok .child =>
      match get_node_log fs x with
      | .ok e => (purePath fs n e.last_workspace_id).map (x :: ·)
      | .error _ => none
    | .error _ => none

/-- `allChildren fs n x`: the walk starting at `x` resolves `n` consecutive
non-root (child) nodes, each with a readable audit entry or stand-in. -/
def allChildren (fs : FS) : Nat → String → Bool
  | 0, _ => true
  | n + 1, x =>
    match get_node_type fs x, get_node_log fs x with
    | .ok .child, .ok e => allChildren fs n e.last_workspace_id
    | _, _ => false

/-- The id reached after `n` child hops (meaningful under `allChildren`). -/
def iterChild (fs : FS) : Nat → String → String
  | 0, x => x
  | n + 1, x =>
    match get_node_type fs x, get_node_log fs x with
    | .ok .child, .ok e => iterChild fs n e.last_workspace_id
    | _, _ => x

/-- A node whose pointer file is readable, and whose audit entry is readable
when it is of child type: processing it in `_traverse_branch` raises no I/O
error. -/
def resolves (fs : FS) (x : String) : Bool :=
  match get_node_type fs x with
  | .ok .root => true
  | .ok .child =>
    match get_node_log fs x with
    | .ok _ => true
    | .error _ => false
  | .error _ => false

/-- One backward hop of the lineage: `a` is a child-typed workspace whose
audit entry (or stand-in) names `b` as `last_workspace_id`.  `b` is `a`'s
parent; "`d` is a descendant of `w`" is `Relation.ReflTransGen (parentStep fs) d w`. -/
def parentStep (fs : FS) (a b : String) : Prop :=
  get_node_type fs a = .ok .child ∧
    ∃ e, get_node_log fs a = .ok e ∧ e.last_workspace_id = b

/-! ### `AuditLogReader._traverse_tree` (lines 72-131)

The scan `for path in self.work_dir.rglob("workspace_pointer.txt")` is modelled
by a list of the (stripped) contents of the pointer files found, in scan
order. The adjacency structure and the BFS are then faithful translations.
The Python function returns `(node_data[root], all_entries)` — the nested tree
and the flat id-to-node map; the claims concern only the set of workspace ids
given a node (exactly the keys of `all_entries`, root plus every enqueued
child, in insertion order) and the set of parent-to-child edges materialised
in the tree (one per `curr_traversal["next"].append(child_data)` call), so the
model returns that pair of lists, performing the same audit-entry lookup per
enqueued child (`__init_entry` with `node_type=NODE_TYPE_CHILD` calls
`_get_node_log`) so that errors propagate identically. -/

/-- Build the parent-to-child adjacency edge list from the scanned pointer
contents, in scan order: contents equal to `"root"` are skipped, anything else
must match `PTR_PATTERN` or the scan raises. -/
def build_adj : List String → Except String (List (String × String))
  | [] => .ok []
  | s :: rest =>
    if s = "root" then build_adj rest
    else
      match parsePtr s with
      | none => .error ("Invalid workspace_pointer.txt: " ++ s)
      | some pc => (build_adj rest).map (fun es => pc :: es)

/-- `adj_mat[x]`: the children recorded against parent `x`, in scan order. -/
def adj (E : List (String × String)) (x : String) : List String :=
  (E.filter (fun e => e.1 = x)).map (fun e => e.2)

/-- `__init_entry(workspace_id=c, node_type=NODE_TYPE_CHILD)` fetches the
child's audit entry; performing the fetch for each newly enqueued child in
order, keeping only the error effect (the entry payloads do not feed back
into the traversal structure). -/
def check_logs (fs : FS) : List String → Except String Unit
  | [] => .ok ()
  | c :: cs => do
    let _ ← get_node_log fs c
    check_logs fs cs

/-- The BFS loop (`while len(nodes_todo) > 0`).  `vis` is the insertion-order
key list of `node_data` / `all_entries` (root plus every enqueued child);
`eds` records each `curr_traversal["next"].append` as a (parent, child) pair.
The Python loop has no fuel; `fuel` only renders its partiality — on the
well-formed inputs of the theorems below the chosen fuel is proven
sufficient, and fuel exhaustion (modelling non-termination) is a
distinguished error that the theorems exclude. -/
def bfs_aux (fs : FS) (E : List (String × String)) :
    Nat → List String → List String → List (String × String) →
    Except String (List String × List (String × String))
  | 0, _, _, _ => .error "model: BFS did not terminate within the fuel bound"
  | _ + 1, [], vis, eds => .ok (vis, eds)
  | n + 1, x :: rest, vis, eds => do
    let cs := adj E x
    let _ ← check_logs fs cs
    bfs_aux fs E n (rest ++ cs) (vis ++ cs) (eds ++ cs.map (fun c => (x, c)))

/-- `AuditLogReader._traverse_tree(root_workspace_id)`, projected onto the
workspace-id list and edge list of the tree it builds (see the section
comment).  `scan` lists the stripped contents of every
`workspace_pointer.txt` in the storage area, in scan order. -/
def traverse_tree (fs : FS) (scan : List String) (root : String) :
    Except String (List String × List (String × String)) := do
  let t ← get_node_type fs root
  match t with
  | .child => .error (root ++ " is not a root node")
  | .root => do
    let E ← build_adj scan
    bfs_aux fs E (2 * E.length + 2) [root] [root] []

/-! ### `src/mcp/ilec_r_lib.py` — `ILECREnvironment.__enter__`

A file inside a workspace is addressed by its path relative to the workspace
directory, a non-empty component list (`pathlib`'s `relative_to`).  All the
patterns involved (`rglob("*.parquet")`, `rglob("*.rds")`, and `rsync`'s
`--exclude=*.parquet` etc.) match against the base name (the last component)
of a path, at any depth. -/

/-- A path relative to a workspace directory, as its components. -/
abbrev FPath : Type := List String

/-- Base name of a relative path. -/
def base (p : FPath) : String := p.getLastD ""

/-- Does string `s` end with `t`?  (`str.endswith` / a `*suffix` glob.) -/
def strEndsWith (s t : String) : Bool := t.data.isSuffixOf s.data

def isParquet (p : FPath) : Bool := strEndsWith (base p) ".parquet"
def isRds (p : FPath) : Bool := strEndsWith (base p) ".rds"
def isJson (p : FPath) : Bool := strEndsWith (base p) ".json"
def isPng (p : FPath) : Bool := strEndsWith (base p) ".png"
def isPointerFile (p : FPath) : Bool := base p = "workspace_pointer.txt"

/-- The `rsync` exclusion list of the second pass (`ilec_r_lib.py` lines
122-130): `*.parquet`, `*.rds`, `*.json`, `*.png`, `workspace_pointer.txt`. -/
def rsyncExcluded (p : FPath) : Bool :=
  isParquet p || isRds p || isJson p || isPng p || isPointerFile p

/-- What a name in the new workspace resolves to: the workspace's own pointer
record (written before any copying), a symlink to the parent's file at the
same relative path, or a physical copy of it. -/
inductive FEntry where
  | ownPointer
  | link (src : FPath)
  | copy (src : FPath)
deriving DecidableEq

/-- Write (create or overwrite) one entry of the new workspace's content map.
`os.symlink` after `link_path.unlink()` and `rsync -a` both overwrite an
existing destination entry. -/
def setEntry : List (FPath × FEntry) → FPath → FEntry → List (FPath × FEntry)
  | [], k, v => [(k, v)]
  | (k', v') :: rest, k, v =>
    if k' = k then (k, v) :: rest else (k', v') :: setEntry rest k v

/-- Look a path up in the new workspace's content map. -/
def getEntry : List (FPath × FEntry) → FPath → Option FEntry
  | [], _ => none
  | (k', v) :: rest, k => if k' = k then some v else getEntry rest k

/-- First pass of the fork (lines 101-119): symlink each listed parent file
into the new workspace at the same relative path. -/
def linkAll (d : List (FPath × FEntry)) (files : List FPath) : List (FPath × FEntry) :=
  files.foldl (fun d f => setEntry d f (.link f)) d

/-- Second pass (lines 121-130): `rsync -a` physically copies each
non-excluded parent file. -/
def copyAll (d : List (FPath × FEntry)) (files : List FPath) : List (FPath × FEntry) :=
  files.foldl (fun d f => setEntry d f (.copy f)) d

/-- Populate the new workspace from the parent's file list, mirroring
`__enter__`'s copy section in order: symlink every `*.parquet` and `*.rds`
file, then (redundantly) re-symlink every `*.parquet` file, then `rsync`
everything not excluded.  `d0` is the content already present — the new
workspace's own pointer record. -/
def forkContents (d0 : List (FPath × FEntry)) (parentFiles : List FPath) :
    List (FPath × FEntry) :=
  let d1 := linkAll d0 (parentFiles.filter (fun f => isParquet f || isRds f))
  let d2 := linkAll d1 (parentFiles.filter (fun f => isParquet f))
  copyAll d2 (parentFiles.filter (fun f => !rsyncExcluded f))

/-- Result of a successful `ILECREnvironment.__enter__`: the pointer content
written for this workspace and the resulting directory contents. -/
structure EnterResult where
  pointerContent : String
  contents : List (FPath × FEntry)
deriving DecidableEq

/-- The relative path of the pointer record. -/
def ptrPath : FPath := ["workspace_pointer.txt"]

/-- `ILECREnvironment.__enter__` (lines 56-138), for a first entry
(`run_setup` true, not disposed).  Arguments: `noCmd` is `no_cmd`;
`lastId` is `last_workspace_id` (already normalised — the constructor maps
`None` and `""` to `None`); `thisId` the fresh workspace id; `parentOk`
whether `workspace_<lastId>` exists and is a directory; `parentFiles` the
parent's files, relative to its directory.

Order of effects, as in the source: create the directory, write the pointer
record, return early when `no_cmd`; otherwise set up the database connection
(opaque here), then fork the parent's contents — raising
`FileNotFoundError(f"invalid last session guid: ...")` when the parent
directory is absent or not a directory — and finally `setwd`. -/
def ilec_enter (noCmd : Bool) (lastId : Option String) (thisId : String)
    (parentOk : Bool) (parentFiles : List FPath) : Except String EnterResult :=
  let ptr : String := match lastId with
    | none => "root"
    | some l => "\"" ++ l ++ "\"->\"" ++ thisId ++ "\""
  let d0 : List (FPath × FEntry) := [(ptrPath, .ownPointer)]
  if noCmd then .ok { pointerContent := ptr, contents := d0 }
  else
    match lastId with
    | none => .ok { pointerContent := ptr, contents := d0 }
    | some l =>
      if parentOk then .ok { pointerContent := ptr, contents := forkContents d0 parentFiles }
      else .error ("invalid last session guid: " ++ l)

/-! ### `src/mcp/ilec_r_lib.py` — `run_target` and `AgentRCommands.run_command`

The child's observable behaviour is a sequence of events: audit-entry writes
into the workspace (`audit.log_tool_call`), messages pushed onto the result
queue (`q.put`), the R teardown (`_endr(0)`) and the process exit
(`sys.exit(0)`).  The result dictionaries `{"success": ..., "result"/"message": ...}`
are modelled as a success flag plus an opaque payload string. -/

/-- A result dictionary: success flag and the `"result"`/`"message"` payload. -/
structure Msg where
  success : Bool
  payload : String
deriving DecidableEq

/-- Observable child events. -/
inductive Ev where
  | auditWrite (last this tool : String) (args : List String) (success : Bool) (payload : String)
  | push (success : Bool) (payload : String)
  | endR
  | exitProc
deriving DecidableEq

/-- The body of `run_target`'s `try` block: enter the environment (`with
r_env`), source the R libraries and call the target (both folded into
`targetRes`, an opaque external command per the spec's scope).  Any raised
exception surfaces as `.error` with its message, caught by the `except`
clause. -/
def run_body (enterRes : Except String Unit) (targetRes : Except String String) :
    Except String String := do
  let _ ← enterRes
  targetRes

/-- The `finally` clause (lines 209-213): replace a missing result by the
generic unknown-error dictionary, push the single message, tear down R, and
hard-exit the child. -/
def finally_evs (res : Option Msg) : List Ev :=
  let r := res.getD { success := false, payload := "unknown error" }
  [.push r.success r.payload, .endR, .exitProc]

/-- `run_target` after argument splitting, with at least three arguments:
`lastId`/`thisId` identify the workspace pair captured by
`AuditLogEntry.__init__` (`last_workspace_id` of `None` is recorded as `""`),
`tool` is `target.__name__`, `targs` is `target_args`.  On body success the
audit entry records the success dictionary and that same dictionary is
pushed; on a raised exception the `except` clause records and pushes the
failure dictionary.  The audit write happens before the push on both paths. -/
def run_target_core (lastId : Option String) (thisId tool : String)
    (targs : List String) (enterRes : Except String Unit)
    (targetRes : Except String String) : List Ev :=
  let lastStr := lastId.getD ""
  match run_body enterRes targetRes with
  | .ok v =>
    .auditWrite lastStr thisId tool targs true v :: finally_evs (some { success := true, payload := v })
  | .error m =>
    .auditWrite lastStr thisId tool targs false m :: finally_evs (some { success := false, payload := m })

/-- `run_target(*args)` (lines 150-213): `args` is `list(args)`; the last
three entries are the target callable, the environment and the queue (always
appended by `run_command`), the rest are the target's arguments.  With fewer
than three entries the function raises before entering the `try` block:
no audit write, no push, no exit through the `finally` clause. -/
def run_target (args : List String) (lastId : Option String) (thisId tool : String)
    (enterRes : Except String Unit) (targetRes : Except String String) :
    Except String (List Ev) :=
  if 3 ≤ args.length then
    .ok (run_target_core lastId thisId tool (args.take (args.length - 3)) enterRes targetRes)
  else .error "Error parsing run_target args"

/-- What the spawned child process did, from the parent's point of view:
either it ran `run_target` to completion of its `finally` clause (event list
`evs`), or it was terminated without ever reaching `q.put` (a crash). -/
inductive ChildOutcome where
  | ran (evs : List Ev)
  | crashed
deriving DecidableEq

/-- The messages that actually arrived on the queue. -/
def childMsgs : ChildOutcome → List Msg
  | .ran evs => evs.filterMap (fun e => match e with
      | .push s p => some { success := s, payload := p }
      | _ => none)
  | .crashed => []

/-- `AgentRCommands.run_command` (lines 218-229), parent side: start the
child, block on `q.get()`, join, return the received message.  `q.get()`
returns the first queued message; when the child dies without queueing one,
`q.get()` never returns — modelled as `none`.  The parent body contains no
fallback result construction and no audit-entry write. -/
def run_command (child : ChildOutcome) : Option Msg :=
  (childMsgs child).head?

/-- The audit-entry writes performed by the parent process inside
`run_command`: the body (`Queue()`, `Process(...)`, `start`, `q.get()`,
`join`, `return res`) performs none. -/
def parentAuditWrites (_child : ChildOutcome) : List Ev := []

/-! ### `src/mcp/ilec_mcp_server.py` — `create_REnv` and the `cmd_*` tools

The session store supplies one lineage work directory per caller; its sealed
state is whether `final.json` exists there (`sealed : Bool`).  Fresh
workspace ids come from `uuid.uuid4()`, passed in as `fresh`.  The outcome of
the isolated R command (the child's result dictionary) is an opaque
parameter `childRes`.  A raised exception is `.error` with its message; a
normal return is `.ok` carrying the response dictionary, which underlying
command (if any) was dispatched through `run_command`, how many workspace
directories the call created (a workspace directory is created — along with
its pointer record, and its audit entry for command runs — only when a child
actually enters the environment, or in the `no_cmd` placeholder case), and
the sealed state of the lineage after the call. -/

/-- A child result dictionary as surfaced to the caller. -/
structure RResult where
  success : Bool
  message : String
deriving DecidableEq

/-- A tool response: the `"workspace_id"` key (absent in
`cmd_create_dataset`'s invalid-sql early return) and the `"result"` value. -/
structure Resp where
  workspace_id : Option String
  result : RResult
deriving DecidableEq

/-- The underlying command dispatched through `AgentRCommands.run_command`,
with the argument tuple actually passed. -/
inductive Spawn where
  | createDataset (name sql : String)
  | runInference (dsIn dsOut : String)
  | rpart (dataset : String) (x_vars : List String) (offset y_var : String)
      (max_depth : Int) (cp : ℚ)
  | glmnet (dataset : String) (x_vars design_matrix_vars : List String)
      (offset_var y_var lambda_strat : String)
deriving DecidableEq

/-- Observable outcome of one successful (non-raising) tool call. -/
structure StepOut where
  resp : Resp
  spawned : Option Spawn
  newWorkspaceDirs : Nat
  sealedAfter : Bool
deriving DecidableEq

/-- The message of the exception raised by `create_REnv` on a sealed
lineage. -/
def sealedMsg : String := "cmd_finalize() has already been called"

/-- `create_REnv(workspace_id, no_cmd)` (lines 30-48): read the session's
work directory, raise when `final.json` already exists there, otherwise
construct the `ILECREnvironment` object (no directory is created by the
constructor; the workspace directory appears only when the environment is
entered). -/
def create_REnv (sealed : Bool) (_workspace_id : Option String) : Except String Unit :=
  if sealed then .error sealedMsg else .ok ()

/-- Word characters for the `\b` boundary after `select`. -/
def isWordChar (c : Char) : Bool := c.isAlphanum || c == '_'

/-- `cmd_create_dataset`'s guard `re.compile(r'(?is)^\s*select\b.*;?\s*$')`:
optional leading whitespace, then `select` case-insensitively at a word
boundary; with `(?s)` the rest matches anything. -/
def isSelectStmt (sql : String) : Bool :=
  let cs := sql.data.dropWhile (fun c => c.isWhitespace)
  decide ((cs.take 6).map Char.toLower = "select".data) &&
    (match cs.drop 6 with
     | [] => true
     | c :: _ => !isWordChar c)

/-- `cmd_init()` (lines 144-155): open a `no_cmd` root placeholder workspace
(this creates its directory and pointer record) and return its id with a
fixed success message. -/
def cmd_init (sealed : Bool) (fresh : String) : Except String StepOut := do
  let _ ← create_REnv sealed none
  .ok { resp := { workspace_id := some fresh
                  result := { success := true, message := "workspace created" } }
        spawned := none
        newWorkspaceDirs := 1
        sealedAfter := sealed }

/-- `cmd_create_dataset(workspace_id, dataset_name, sql)` (lines 157-183):
the select-statement guard runs before `create_REnv`; an invalid statement is
answered immediately (no workspace id, nothing created, nothing spawned).
Otherwise fork a workspace and dispatch `RCmd.cmd_create_dataset`. -/
def cmd_create_dataset (sealed : Bool) (fresh : String) (parent : String)
    (dataset_name sql : String) (childRes : RResult) : Except String StepOut :=
  if !isSelectStmt sql then
    .ok { resp := { workspace_id := none
                    result := { success := false
                                message := "sql must be a valid duckdb select statement." } }
          spawned := none
          newWorkspaceDirs := 0
          sealedAfter := sealed }
  else do
    let _ ← create_REnv sealed (some parent)
    .ok { resp := { workspace_id := some fresh, result := childRes }
          spawned := some (.createDataset dataset_name sql)
          newWorkspaceDirs := 1
          sealedAfter := sealed }

/-- `cmd_run_inference(workspace_id, dataset_in, dataset_out)` (lines 185-200). -/
def cmd_run_inference (sealed : Bool) (fresh : String) (parent : String)
    (dataset_in dataset_out : String) (childRes : RResult) : Except String StepOut := do
  let _ ← create_REnv sealed (some parent)
  .ok { resp := { workspace_id := some fresh, result := childRes }
        spawned := some (.runInference dataset_in dataset_out)
        newWorkspaceDirs := 1
        sealedAfter := sealed }

/-- `cmd_rpart(...)` (lines 203-241): `create_REnv` first (allocating the new
id), then the `x_vars` and `max_depth` guards, each answering immediately
with a failure result carrying the fresh id — without spawning a worker, so
no workspace directory, pointer record or audit entry comes into being.
Otherwise dispatch `RCmd.cmd_rpart` with `min(max_depth, 4)` and
`max(cp, 0.0001)`. -/
def cmd_rpart (sealed : Bool) (fresh : String) (parent : String)
    (dataset : String) (x_vars : List String) (offset y_var : String)
    (max_depth : Int) (cp : ℚ) (childRes : RResult) : Except String StepOut := do
  let _ ← create_REnv sealed (some parent)
  if 5 < x_vars.length then
    .ok { resp := { workspace_id := some fresh
                    result := { success := false
                                message := "more than 5 x_vars passed, maximum of 5" } }
          spawned := none
          newWorkspaceDirs := 0
          sealedAfter := sealed }
  else if 4 < max_depth then
    .ok { resp := { workspace_id := some fresh
                    result := { success := false
                                message := "max_depth > 4 passed, maximum of 4" } }
          spawned := none
          newWorkspaceDirs := 0
          sealedAfter := sealed }
  else
    .ok { resp := { workspace_id := some fresh, result := childRes }
          spawned := some (.rpart dataset x_vars offset y_var (min max_depth 4)
            (max cp (1 / 10000)))
          newWorkspaceDirs := 1
          sealedAfter := sealed }

/-- `cmd_glmnet(...)` (lines 243-266); the factor-level and clipping
dictionaries are opaque to every claim and omitted from the spawn record. -/
def cmd_glmnet (sealed : Bool) (fresh : String) (parent : String)
    (dataset : String) (x_vars design_matrix_vars : List String)
    (offset_var y_var lambda_strat : String) (childRes : RResult) :
    Except String StepOut := do
  let _ ← create_REnv sealed (some parent)
  .ok { resp := { workspace_id := some fresh, result := childRes }
        spawned := some (.glmnet dataset x_vars design_matrix_vars offset_var y_var lambda_strat)
        newWorkspaceDirs := 1
        sealedAfter := sealed }

/-- `cmd_finalize(workspace_id)` (lines 269-318): open one last `no_cmd`
workspace against the leaf (raising on a sealed lineage before anything is
created), then write `final.json` into the lineage's work directory —
sealing it — and gather the plot images. -/
def cmd_finalize (sealed : Bool) (fresh : String) (parent : String) :
    Except String StepOut := do
  let _ ← create_REnv sealed (some parent)
  .ok { resp := { workspace_id := some fresh
                  result := { success := true
                              message := "workspace finalized, no further calls to cmd_*() allowed, your modeling work is done." } }
        spawned := none
        newWorkspaceDirs := 1
        sealedAfter := true }

/-- `sql_schema` (lines 53-79): touches only the DuckDB connection; creates
no workspace and neither checks nor changes `final.json`. -/
def sql_schema (sealed : Bool) (ok : Bool) (msg : String) : Except String StepOut :=
  .ok { resp := { workspace_id := none, result := { success := ok, message := msg } }
        spawned := none
        newWorkspaceDirs := 0
        sealedAfter := sealed }

/-- `sql_run` (lines 81-142): runs a query and writes a query log under
`sql_run/`; creates no workspace directory and neither checks nor changes
`final.json`. -/
def sql_run (sealed : Bool) (ok : Bool) (msg : String) : Except String StepOut :=
  .ok { resp := { workspace_id := none, result := { success := ok, message := msg } }
        spawned := none
        newWorkspaceDirs := 0
        sealedAfter := sealed }

/-- Every tool the server exposes, with the caller-controlled payload each
needs. -/
inductive Op where
  | init
  | createDataset (parent name sql : String)
  | runInference (parent dsIn dsOut : String)
  | rpart (parent dataset : String) (x_vars : List String) (offset y_var : String)
      (max_depth : Int) (cp : ℚ)
  | glmnet (parent dataset : String) (x_vars design_matrix_vars : List String)
      (offset_var y_var lambda_strat : String)
  | finalize (parent : String)
  | sqlRun (ok : Bool) (msg : String)
  | sqlSchema (ok : Bool) (msg : String)

/-- Dispatch one tool call against the lineage's sealed state. -/
def serverStep (op : Op) (sealed : Bool) (fresh : String) (childRes : RResult) :
    Except String StepOut :=
  match op with
  | .init => cmd_init sealed fresh
  | .createDataset p n s => cmd_create_dataset sealed fresh p n s childRes
  | .runInference p a b => cmd_run_inference sealed fresh p a b childRes
  | .rpart p ds xs off y md cp => cmd_rpart sealed fresh p ds xs off y md cp childRes
  | .glmnet p ds xs dmv off y ls => cmd_glmnet sealed fresh p ds xs dmv off y ls childRes
  | .finalize p => cmd_finalize sealed fresh p
  | .sqlRun ok m => sql_run sealed ok m
  | .sqlSchema ok m => sql_schema sealed ok m

/-! ### Concrete instances used by witnesses and counterexamples -/

/-- Does an event push a result message onto the queue? -/
def isPushEv : Ev → Bool
  | .push _ _ => true
  | _ => false

/-- A three-workspace storage area: root `r`, its child `a` (with an audit
entry), and `a`'s child `b`, whose `tool_call.json` is missing — only its
pointer record links it to `a`. -/
def fsA : FS := fun s =>
  if s = "r" then some { ptr := "root", toolCall := none }
  else if s = "a" then
    some { ptr := "\"r\"->\"a\""
           toolCall := some (create_log_entry "r" "a" "cmd_rpart" [] []) }
  else if s = "b" then some { ptr := "\"a\"->\"b\"", toolCall := none }
  else none

/-- The chain `_traverse_branch` builds for leaf `b` of `fsA`. -/
def chainABC : Chain :=
  .node "r" .root none
    (.node "a" .child (some (create_log_entry "r" "a" "cmd_rpart" [] []))
      (.last "b" .child (some (create_log_entry "a" "b" "unknown" [] []))))

/-- The workspace id at depth `n` of the deep lineage `fsB`: `n` copies of
`a`. -/
def aId (n : Nat) : String := String.mk (List.replicate n 'a')

/-- A lineage that is a single straight chain of exactly 1000 workspaces:
`aId 999` is the root, and for `m < 999` the workspace `aId m` is a child of
`aId (m + 1)` with an audit entry recording that parent. -/
def fsB : FS := fun s =>
  if s.data.all (fun c => c == 'a') then
    let n := s.data.length
    if n < 999 then
      some { ptr := "x", toolCall := some (create_log_entry (aId (n + 1)) s "t" [] []) }
    else if n = 999 then some { ptr := "root", toolCall := none }
    else none
  else none

/-! ## Theorems -/

@[simp] theorem ok_bind {α β : Type} (a : α) (f : α → Except String β) :
    (Except.ok a : Except String α) >>= f = f a := rfl

@[simp] theorem error_bind {α β : Type} (e : String) (f : α → Except String β) :
    (Except.error e : Except String α) >>= f = Except.error e := rfl

/-! ### Lookup lemmas for the fork content map -/

theorem getEntry_setEntry (d : List (FPath × FEntry)) (k : FPath) (v : FEntry) (k' : FPath) :
    getEntry (setEntry d k v) k' = if k = k' then some v else getEntry d k' := by
  induction d with
  | nil => simp [setEntry, getEntry]
  | cons hd tl ih =>
    obtain ⟨hk, hv⟩ := hd
    by_cases h1 : hk = k
    · subst h1
      simp only [setEntry, if_pos rfl, getEntry]
      by_cases h2 : hk = k' <;> simp [h2]
    · simp only [setEntry, if_neg h1, getEntry, ih]
      by_cases h2 : hk = k' <;> by_cases h3 : k = k' <;> simp_all

theorem getEntry_linkAll (files : List FPath) (d : List (FPath × FEntry)) (k : FPath) :
    getEntry (linkAll d files) k = if k ∈ files then some (.link k) else getEntry d k := by
  induction files generalizing d with
  | nil => simp [linkAll]
  | cons f fs ih =>
    show getEntry (linkAll (setEntry d f (.link f)) fs) k = _
    rw [ih, getEntry_setEntry]
    by_cases h1 : k ∈ fs
    · simp [h1]
    · by_cases h2 : f = k
      · subst h2
        simp [h1]
      · simp [h1, h2, Ne.symm h2]

theorem getEntry_copyAll (files : List FPath) (d : List (FPath × FEntry)) (k : FPath) :
    getEntry (copyAll d files) k = if k ∈ files then some (.copy k) else getEntry d k := by
  induction files generalizing d with
  | nil => simp [copyAll]
  | cons f fs ih =>
    show getEntry (copyAll (setEntry d f (.copy f)) fs) k = _
    rw [ih, getEntry_setEntry]
    by_cases h1 : k ∈ fs
    · simp [h1]
    · by_cases h2 : f = k
      · subst h2
        simp [h1]
      · simp [h1, h2, Ne.symm h2]

/-- C2: forking a workspace from an existing parent populates it so that
every `*.parquet` and `*.rds` file of the parent appears as a link to the
parent's file; every `*.json` file, every `*.png` file and the parent's
`workspace_pointer.txt` are not propagated at all (the pointer path holds the
new workspace's own record); and every other parent file is physically
copied. -/
theorem claim_C2 (p thisId : String) (files : List FPath) (f : FPath) :
    ∃ res, ilec_enter false (some p) thisId true files = .ok res ∧
      getEntry res.contents f =
        (if f ∈ files ∧ (isParquet f || isRds f) = true then some (.link f)
         else if f ∈ files ∧ rsyncExcluded f = false then some (.copy f)
         else if f = ptrPath then some .ownPointer
         else none) := by
  refine ⟨_, rfl, ?_⟩
  show getEntry (forkContents [(ptrPath, .ownPointer)] files) f = _
  unfold forkContents
  rw [getEntry_copyAll, getEntry_linkAll, getEntry_linkAll]
  simp only [List.mem_filter, getEntry]
  by_cases hmem : f ∈ files
  · by_cases hpq : isParquet f
    · have hex : rsyncExcluded f = true := by simp [rsyncExcluded, hpq]
      simp [hmem, hpq, hex]
    · by_cases hrds : isRds f
      · have hex : rsyncExcluded f = true := by simp [rsyncExcluded, hrds]
        simp [hmem, hpq, hrds, hex]
      · by_cases hex : rsyncExcluded f
        · by_cases hptr : f = ptrPath
          · subst hptr
            simp [hmem, (by decide : isParquet ptrPath = false),
              (by decide : isRds ptrPath = false),
              (by decide : rsyncExcluded ptrPath = true)]
          · simp [hmem, hpq, hrds, hex, hptr, Ne.symm hptr]
        · simp [hmem, hpq, hrds, hex]
  · by_cases hptr : f = ptrPath
    · subst hptr
      simp [hmem]
    · simp [hmem, hptr, Ne.symm hptr]

/-- C4: for every `run_target` invocation with at least three arguments, on
every execution path — command success, command failure (any exception from
entering the environment, sourcing the libraries or the target itself), or
internal exception — the child writes exactly one audit entry (parent id,
this id, command name, the target arguments, result with success flag) into
the workspace, then pushes exactly one result message carrying the success
flag onto the channel, and then hard-exits; the audit write precedes the
push, on failure paths too, and the flag is true exactly when every stage
succeeded. -/
theorem claim_C4 (args : List String) (lastId : Option String) (thisId tool : String)
    (enterRes : Except String Unit) (targetRes : Except String String)
    (h : 3 ≤ args.length) :
    ∃ (s : Bool) (pay : String),
      run_target args lastId thisId tool enterRes targetRes =
        .ok [.auditWrite (lastId.getD "") thisId tool (args.take (args.length - 3)) s pay,
             .push s pay, .endR, .exitProc] ∧
      ([Ev.auditWrite (lastId.getD "") thisId tool (args.take (args.length - 3)) s pay,
        .push s pay, .endR, .exitProc].countP (fun e => isPushEv e)) = 1 ∧
      (s = true ↔ enterRes = .ok () ∧ targetRes = .ok pay) := by
  unfold run_target run_target_core run_body finally_evs
  rw [if_pos h]
  cases enterRes with
  | error m => exact ⟨false, m, rfl, rfl, by simp⟩
  | ok u =>
    cases u
    cases targetRes with
    | error m => exact ⟨false, m, rfl, rfl, by simp⟩
    | ok v => exact ⟨true, v, rfl, rfl, by simp⟩

/-- Witness for C4 at a concrete invocation: one string argument plus the
three trailing handles, with both stages succeeding. -/
theorem claim_C4_witness :
    ∃ (s : Bool) (pay : String),
      run_target ["x1", "t", "e", "q"] none "w1" "cmd_rpart" (.ok ()) (.ok "res") =
        .ok [.auditWrite ((none : Option String).getD "") "w1" "cmd_rpart"
               (["x1", "t", "e", "q"].take (["x1", "t", "e", "q"].length - 3)) s pay,
             .push s pay, .endR, .exitProc] ∧
      ([Ev.auditWrite ((none : Option String).getD "") "w1" "cmd_rpart"
          (["x1", "t", "e", "q"].take (["x1", "t", "e", "q"].length - 3)) s pay,
        .push s pay, .endR, .exitProc].countP (fun e => isPushEv e)) = 1 ∧
      (s = true ↔ (.ok () : Except String Unit) = .ok () ∧
        (.ok "res" : Except String String) = .ok pay) :=
  claim_C4 ["x1", "t", "e", "q"] none "w1" "cmd_rpart" (.ok ()) (.ok "res") (by decide)

/-- C3 (counterexample): when the child process terminates without sending a
message, `run_command`'s `q.get()` never returns — the parent neither
produces the generic unknown-error result the claim promises nor writes any
best-effort audit entry. -/
theorem claim_C3_counterexample :
    run_command .crashed = none ∧
    parentAuditWrites .crashed = [] ∧
    ¬ run_command .crashed = some { success := false, payload := "unknown error" } := by
  refine ⟨rfl, rfl, ?_⟩
  intro h
  simp [run_command, childMsgs] at h

/-- C3 (amended): the parent blocks until the single result message and
returns exactly the first message queued; a child that terminates without
sending one leaves the parent blocked (no result is ever produced) and no
audit entry is written by the parent on any outcome — the generic
unknown-error result is constructed in the child's `finally` clause, for the
case where the child's own body produced no result. -/
theorem claim_C3 :
    (∀ child : ChildOutcome,
      run_command child = (childMsgs child).head? ∧ parentAuditWrites child = []) ∧
    run_command .crashed = none ∧
    finally_evs none = [.push false "unknown error", .endR, .exitProc] :=
  ⟨fun _ => ⟨rfl, rfl⟩, rfl, rfl⟩

/-- C9: when a fork (a non-`no_cmd` entry with a parent id set) finds the
parent's directory absent or not a directory, `ILECREnvironment.__enter__`
raises `FileNotFoundError` with a message naming the invalid parent id; the
error propagates (there is no retry path in the function). -/
theorem claim_C9 (p thisId : String) (files : List FPath) :
    ilec_enter false (some p) thisId false files =
      .error ("invalid last session guid: " ++ p) := rfl

/-- C10: with the lineage unsealed, `cmd_rpart` with more than 5 `x_vars` or
`max_depth` above 4 immediately returns a failure result carrying the
freshly generated workspace id, spawning no worker and creating no workspace
directory (hence no pointer record or audit entry); otherwise the underlying
command is dispatched with `cp` clamped upward to at least `0.0001`. -/
theorem claim_C10 (fresh parent dataset : String) (xs : List String)
    (offset y_var : String) (md : Int) (cp : ℚ) (childRes : RResult) :
    (5 < xs.length →
      cmd_rpart false fresh parent dataset xs offset y_var md cp childRes =
        .ok { resp := { workspace_id := some fresh
                        result := { success := false
                                    message := "more than 5 x_vars passed, maximum of 5" } }
              spawned := none, newWorkspaceDirs := 0, sealedAfter := false }) ∧
    (xs.length ≤ 5 → 4 < md →
      cmd_rpart false fresh parent dataset xs offset y_var md cp childRes =
        .ok { resp := { workspace_id := some fresh
                        result := { success := false
                                    message := "max_depth > 4 passed, maximum of 4" } }
              spawned := none, newWorkspaceDirs := 0, sealedAfter := false }) ∧
    (xs.length ≤ 5 → md ≤ 4 →
      cmd_rpart false fresh parent dataset xs offset y_var md cp childRes =
        .ok { resp := { workspace_id := some fresh, result := childRes }
              spawned := some (.rpart dataset xs offset y_var md (max cp (1 / 10000)))
              newWorkspaceDirs := 1, sealedAfter := false } ∧
      (1 : ℚ) / 10000 ≤ max cp (1 / 10000)) := by
  refine ⟨fun h => ?_, fun h1 h2 => ?_, fun h1 h2 => ⟨?_, le_max_right _ _⟩⟩
  · simp [cmd_rpart, create_REnv, Except.bind, h]
  · simp [cmd_rpart, create_REnv, Except.bind, Nat.not_lt.mpr h1, h2]
  · simp [cmd_rpart, create_REnv, Except.bind, Nat.not_lt.mpr h1, not_lt.mpr h2,
      min_eq_left h2]

/-- Witness for C10: a 6-variable call is refused without spawning; a
4-variable, depth-3 call is dispatched with its `cp` of `1/2` clamped by
`max` against `0.0001`. -/
theorem claim_C10_witness :
    (cmd_rpart false "f" "p" "ds" ["a", "b", "c", "d", "e", "g"] "off" "y" 3 (1 / 2)
        { success := true, message := "ok" } =
      .ok { resp := { workspace_id := some "f"
                      result := { success := false
                                  message := "more than 5 x_vars passed, maximum of 5" } }
            spawned := none, newWorkspaceDirs := 0, sealedAfter := false }) ∧
    (cmd_rpart false "f" "p" "ds" ["a", "b"] "off" "y" 3 (1 / 2)
        { success := true, message := "ok" } =
      .ok { resp := { workspace_id := some "f"
                      result := { success := true, message := "ok" } }
            spawned := some (.rpart "ds" ["a", "b"] "off" "y" 3 (max (1 / 2) (1 / 10000)))
            newWorkspaceDirs := 1, sealedAfter := false } ∧
      (1 : ℚ) / 10000 ≤ max (1 / 2) (1 / 10000)) :=
  ⟨(claim_C10 "f" "p" "ds" ["a", "b", "c", "d", "e", "g"] "off" "y" 3 (1 / 2)
      { success := true, message := "ok" }).1 (by decide),
   (claim_C10 "f" "p" "ds" ["a", "b"] "off" "y" 3 (1 / 2)
      { success := true, message := "ok" }).2.2 (by decide) (by decide)⟩

/-- C5 (counterexample): a non-root workspace (`b` of `fsA`) whose
`tool_call.json` is missing but whose pointer record parses as an edge is
not a fatal error: `_get_node_log` silently produces a substitute entry with
tool name `"unknown"`, and the full tree traversal completes normally with
that substitute in place. -/
theorem claim_C5_counterexample :
    get_node_log fsA "b" = .ok (create_log_entry "a" "b" "unknown" [] []) ∧
    traverse_tree fsA ["root", "\"r\"->\"a\"", "\"a\"->\"b\""] "r" =
      .ok (["r", "a", "b"], [("r", "a"), ("a", "b")]) := by
  constructor <;> decide

/-- C5 (amended): during lineage reconstruction, a pointer record that does
not parse as `"root"` or as an edge is a fatal error that raises — in the
tree scan (`_traverse_tree`) and in the node-log fallback (`_get_node_log`)
alike — and a workspace directory with neither file raises; but a non-root
workspace whose `tool_call.json` is missing while its pointer record parses
as an edge is not an error: `_get_node_log` returns a substitute entry with
tool name `"unknown"` and empty arguments and result. -/
theorem claim_C5 (fs : FS) (wid wid2 : String) (d : WDir) (a b : String)
    (scan : List String) (s : String) :
    (fs wid = some d → d.toolCall = none → parsePtr d.ptr = none →
      get_node_log fs wid = .error ("Invalid workspace_pointer.txt: " ++ wid)) ∧
    (fs wid = some d → d.toolCall = none → parsePtr d.ptr = some (a, b) →
      get_node_log fs wid = .ok (create_log_entry a b "unknown" [] [])) ∧
    (fs wid2 = none →
      get_node_log fs wid2 = .error "No tool_call or workspace pointer in \x7b\x7d") ∧
    (s ∈ scan → s ≠ "root" → parsePtr s = none → ∃ msg, build_adj scan = .error msg) := by
  refine ⟨fun h1 h2 h3 => ?_, fun h1 h2 h3 => ?_, fun h => ?_, ?_⟩
  · simp [get_node_log, h1, h2, h3]
  · simp [get_node_log, h1, h2, h3]
  · simp [get_node_log, h]
  · induction scan with
    | nil => intro hmem; exact absurd hmem (List.not_mem_nil s)
    | cons hd tl ih =>
      intro hmem hs hp
      rcases List.mem_cons.mp hmem with rfl | hmem'
      · refine ⟨"Invalid workspace_pointer.txt: " ++ s, ?_⟩
        simp [build_adj, hs, hp]
      · by_cases hroot : hd = "root"
        · obtain ⟨msg, hmsg⟩ := ih hmem' hs hp
          exact ⟨msg, by simp [build_adj, hroot, hmsg]⟩
        · cases hparse : parsePtr hd with
          | none => exact ⟨"Invalid workspace_pointer.txt: " ++ hd, by simp [build_adj, hroot, hparse]⟩
          | some pc =>
            obtain ⟨msg, hmsg⟩ := ih hmem' hs hp
            exact ⟨msg, by simp [build_adj, hroot, hparse, hmsg, Except.map]⟩

/-- Witness for C5 at concrete storage areas: an unparsable pointer with a
missing audit entry raises; `fsA`'s `b` gets the `"unknown"` stand-in; a
missing directory raises; an unparsable pointer content in the scan makes
the tree scan raise. -/
theorem claim_C5_witness :
    get_node_log (fun s => if s = "x" then some { ptr := "garbage", toolCall := none } else none)
        "x" = .error ("Invalid workspace_pointer.txt: " ++ "x") ∧
    get_node_log fsA "b" = .ok (create_log_entry "a" "b" "unknown" [] []) ∧
    get_node_log fsA "zz" = .error "No tool_call or workspace pointer in \x7b\x7d" ∧
    (∃ msg, build_adj ["root", "junk"] = .error msg) := by
  refine ⟨?_, ?_, ?_, ?_⟩
  · exact (claim_C5 (fun s => if s = "x" then some { ptr := "garbage", toolCall := none } else none)
      "x" "" { ptr := "garbage", toolCall := none } "" "" [] "").1 (by decide) rfl (by decide)
  · exact (claim_C5 fsA "b" "" { ptr := "\"a\"->\"b\"", toolCall := none } "a" "b" [] "").2.1
      (by decide) rfl (by decide)
  · exact (claim_C5 fsA "b" "zz" { ptr := "", toolCall := none } "" "" [] "").2.2.1 (by decide)
  · exact (claim_C5 fsA "b" "zz" { ptr := "", toolCall := none } "" ""
      ["root", "junk"] "junk").2.2.2 (by decide) (by decide) (by decide)

/-- C1 (counterexample): on a sealed lineage, a `cmd_create_dataset` call
whose sql fails the select-statement guard is answered with the guard's
ordinary failure result — not with the sealed-lineage error the claim
promises for every such call. -/
theorem claim_C1_counterexample :
    cmd_create_dataset true "f" "p" "ds" "DROP TABLE t" { success := true, message := "" } =
      .ok { resp := { workspace_id := none
                      result := { success := false
                                  message := "sql must be a valid duckdb select statement." } }
            spawned := none, newWorkspaceDirs := 0, sealedAfter := true } ∧
    ¬ cmd_create_dataset true "f" "p" "ds" "DROP TABLE t" { success := true, message := "" } =
        .error sealedMsg := by
  constructor
  · decide
  · decide

/-- C1 (amended): once `final.json` exists, `cmd_init`, `cmd_run_inference`,
`cmd_rpart`, `cmd_glmnet`, a second `cmd_finalize`, and every
`cmd_create_dataset` call that passes the select-statement guard raise the
sealed-lineage error inside `create_REnv`, before any workspace object — let
alone directory — is created; a `cmd_create_dataset` call failing the guard
returns the guard's failure instead (still creating nothing and leaving the
seal in place); and no operation of the server ever turns the sealed state
off. -/
theorem claim_C1 (fresh parent name sql dsIn dsOut dataset offset y_var lam : String)
    (xs dmv : List String) (md : Int) (cp : ℚ) (childRes : RResult) :
    cmd_init true fresh = .error sealedMsg ∧
    (isSelectStmt sql = true →
      cmd_create_dataset true fresh parent name sql childRes = .error sealedMsg) ∧
    (isSelectStmt sql = false →
      cmd_create_dataset true fresh parent name sql childRes =
        .ok { resp := { workspace_id := none
                        result := { success := false
                                    message := "sql must be a valid duckdb select statement." } }
              spawned := none, newWorkspaceDirs := 0, sealedAfter := true }) ∧
    cmd_run_inference true fresh parent dsIn dsOut childRes = .error sealedMsg ∧
    cmd_rpart true fresh parent dataset xs offset y_var md cp childRes = .error sealedMsg ∧
    cmd_glmnet true fresh parent dataset xs dmv offset y_var lam childRes = .error sealedMsg ∧
    cmd_finalize true fresh parent = .error sealedMsg ∧
    (∀ (op : Op) (sealed : Bool) (out : StepOut),
      serverStep op sealed fresh childRes = .ok out → sealed = true →
        out.sealedAfter = true) := by
  refine ⟨rfl, fun hs => ?_, fun hs => ?_, rfl, rfl, rfl, rfl, ?_⟩
  · simp [cmd_create_dataset, create_REnv, hs]
  · simp [cmd_create_dataset, create_REnv, hs]
  · intro op sealed out hok hseal
    subst hseal
    cases op with
    | init => exact Except.noConfusion hok
    | createDataset p n s =>
      by_cases hg : isSelectStmt s = true
      · simp only [serverStep, cmd_create_dataset, create_REnv, hg, Bool.not_true,
          Bool.false_eq_true, if_false] at hok
        exact Except.noConfusion hok
      · simp only [Bool.not_eq_true] at hg
        simp [serverStep, cmd_create_dataset, create_REnv, hg] at hok
        exact hok ▸ rfl
    | runInference p a b => exact Except.noConfusion hok
    | rpart p ds zs off y m c => exact Except.noConfusion hok
    | glmnet p ds zs dmv off y ls => exact Except.noConfusion hok
    | finalize p => exact Except.noConfusion hok
    | sqlRun ok m =>
      simp [serverStep, sql_run] at hok
      exact hok ▸ rfl
    | sqlSchema ok m =>
      simp [serverStep, sql_schema] at hok
      exact hok ▸ rfl

/-- Witness for C1 at concrete inputs: both guard outcomes of
`cmd_create_dataset` on a sealed lineage, and the no-unseal property at a
successful `sql_run` call. -/
theorem claim_C1_witness :
    cmd_create_dataset true "f" "p" "ds" "select 1" { success := true, message := "" } =
      .error sealedMsg ∧
    cmd_create_dataset true "f" "p" "ds" "DROP" { success := true, message := "" } =
      .ok { resp := { workspace_id := none
                      result := { success := false
                                  message := "sql must be a valid duckdb select statement." } }
            spawned := none, newWorkspaceDirs := 0, sealedAfter := true } ∧
    ∀ out, serverStep (.sqlRun true "ok") true "f" { success := true, message := "" } = .ok out →
      out.sealedAfter = true := by
  refine ⟨?_, ?_, ?_⟩
  · exact (claim_C1 "f" "p" "ds" "select 1" "" "" "" "" "" "" [] [] 0 0
      { success := true, message := "" }).2.1 (by decide)
  · exact (claim_C1 "f" "p" "ds" "DROP" "" "" "" "" "" "" [] [] 0 0
      { success := true, message := "" }).2.2.1 (by decide)
  · intro out hok
    exact (claim_C1 "f" "p" "ds" "DROP" "" "" "" "" "" "" [] [] 0 0
      { success := true, message := "" }).2.2.2.2.2.2.2 (.sqlRun true "ok") true out hok rfl

/-! ### The backward walk: pure-specification lemmas -/

theorem pure_mono (fs : FS) :
    ∀ n m x l, purePath fs n x = some l → n ≤ m → purePath fs m x = some l := by
  intro n
  induction n with
  | zero => intro m x l h _; simp [purePath] at h
  | succ n ih =>
    intro m x l h hm
    obtain ⟨m', rfl⟩ : ∃ m', m = m' + 1 := ⟨m - 1, by omega⟩
    have hm' : n ≤ m' := by omega
    cases ht : get_node_type fs x with
    | error e => simp [purePath, ht] at h
    | ok t =>
      cases t with
      | root =>
        simp only [purePath, ht] at h
        simp only [purePath, ht]
        exact h
      | child =>
        cases hl : get_node_log fs x with
        | error e => simp [purePath, ht, hl] at h
        | ok en =>
          simp only [purePath, ht, hl] at h ⊢
          obtain ⟨l0, h0, hxl⟩ := Option.map_eq_some'.mp h
          rw [ih m' _ _ h0 hm']
          exact congrArg some hxl

theorem pure_shape (fs : FS) (n : Nat) (x : String) (l : List String)
    (h : purePath fs n x = some l) : ∃ l0, l = x :: l0 := by
  cases n with
  | zero => simp [purePath] at h
  | succ n =>
    cases ht : get_node_type fs x with
    | error e => simp [purePath, ht] at h
    | ok t =>
      cases t with
      | root =>
        simp only [purePath, ht, Option.some.injEq] at h
        exact ⟨[], h.symm⟩
      | child =>
        cases hl : get_node_log fs x with
        | error e => simp [purePath, ht, hl] at h
        | ok en =>
          simp only [purePath, ht, hl] at h
          obtain ⟨l0, _, hxl⟩ := Option.map_eq_some'.mp h
          exact ⟨l0, hxl.symm⟩

theorem pure_mem (fs : FS) :
    ∀ n x l y, purePath fs n x = some l → y ∈ l →
      ∃ m l', m ≤ n ∧ purePath fs m y = some l' ∧ l' <:+ l := by
  intro n
  induction n with
  | zero => intro x l y h _; simp [purePath] at h
  | succ n ih =>
    intro x l y h hy
    cases ht : get_node_type fs x with
    | error e => simp [purePath, ht] at h
    | ok t =>
      cases t with
      | root =>
        simp only [purePath, ht, Option.some.injEq] at h
        subst h
        rcases List.mem_singleton.mp hy with rfl
        exact ⟨n + 1, [y], le_refl _, by simp [purePath, ht], List.suffix_refl _⟩
      | child =>
        cases hl : get_node_log fs x with
        | error e => simp [purePath, ht, hl] at h
        | ok en =>
          simp only [purePath, ht, hl] at h
          obtain ⟨l0, h0, hxl⟩ := Option.map_eq_some'.mp h
          subst hxl
          rcases List.mem_cons.mp hy with rfl | hy'
          · exact ⟨n + 1, y :: l0, le_refl _, by simp [purePath, ht, hl, h0], List.suffix_refl _⟩
          · obtain ⟨m, l', hm, hp, hsuf⟩ := ih _ _ _ h0 hy'
            exact ⟨m, l', by omega, hp, hsuf.trans (List.suffix_cons x l0)⟩

theorem pure_nodup (fs : FS) :
    ∀ n x l, purePath fs n x = some l → l.Nodup := by
  intro n
  induction n with
  | zero => intro x l h; simp [purePath] at h
  | succ n ih =>
    intro x l h
    cases ht : get_node_type fs x with
    | error e => simp [purePath, ht] at h
    | ok t =>
      cases t with
      | root =>
        simp only [purePath, ht, Option.some.injEq] at h
        subst h
        exact List.nodup_singleton x
      | child =>
        cases hl : get_node_log fs x with
        | error e => simp [purePath, ht, hl] at h
        | ok en =>
          simp only [purePath, ht, hl] at h
          obtain ⟨l0, h0, hxl⟩ := Option.map_eq_some'.mp h
          subst hxl
          refine List.nodup_cons.mpr ⟨?_, ih _ _ h0⟩
          intro hx
          obtain ⟨m, l', hm, hp, hsuf⟩ := pure_mem fs n _ _ _ h0 hx
          have hfull : purePath fs (n + 1) x = some l' :=
            pure_mono fs m (n + 1) x l' hp (by omega)
          have hstep : purePath fs (n + 1) x = some (x :: l0) := by
            simp [purePath, ht, hl, h0]
          have hll : l' = x :: l0 := by
            rw [hfull] at hstep
            exact Option.some.inj hstep
          have hlen : l'.length ≤ l0.length := hsuf.length_le
          rw [hll] at hlen
          simp at hlen

theorem pure_anc_mem (fs : FS) (d w : String)
    (h : Relation.ReflTransGen (parentStep fs) d w) :
    ∀ n l, purePath fs n d = some l → w ∈ l := by
  induction h using Relation.ReflTransGen.head_induction_on with
  | refl =>
    intro n l hp
    obtain ⟨l0, rfl⟩ := pure_shape fs n w l hp
    exact List.mem_cons_self _ _
  | head hstep hrest ih =>
    intro n l hp
    obtain ⟨hty, en, hlog, hlast⟩ := hstep
    cases n with
    | zero => simp [purePath] at hp
    | succ n =>
      simp only [purePath, hty, hlog] at hp
      obtain ⟨l0, h0, hxl⟩ := Option.map_eq_some'.mp hp
      subst hxl
      rw [hlast] at h0
      exact List.mem_cons_of_mem _ (ih n l0 h0)

/-! ### Correspondence between `branch_loop` and the pure walk -/

theorem branch_loop_pure (fs : FS) :
    ∀ n ct curr acc c, ct ≠ .root → branch_loop fs n ct curr acc = .ok c →
      ∃ l, purePath fs n curr = some l ∧ chainIds c = l.reverse ++ accIds acc := by
  intro n
  induction n with
  | zero => intro ct curr acc c _ h; simp [branch_loop] at h
  | succ n ih =>
    intro ct curr acc c hct h
    cases ct with
    | root => exact absurd rfl hct
    | child =>
      rw [branch_loop] at h
      cases ht : get_node_type fs curr with
      | error e => rw [ht] at h; simp at h
      | ok t =>
        rw [ht] at h
        cases t with
        | root =>
          simp only [ok_bind] at h
          cases n with
          | zero => simp [branch_loop] at h
          | succ n' =>
            rw [branch_loop] at h
            cases acc with
            | none =>
              simp only [Except.ok.injEq] at h
              refine ⟨[curr], by simp [purePath, ht], ?_⟩
              rw [← h]
              rfl
            | some c0 =>
              simp only [Except.ok.injEq] at h
              refine ⟨[curr], by simp [purePath, ht], ?_⟩
              rw [← h]
              rfl
        | child =>
          cases hl : get_node_log fs curr with
          | error e => rw [hl] at h; simp [Except.map] at h
          | ok en =>
            rw [hl] at h
            simp only [Except.map, ok_bind] at h
            obtain ⟨l0, h0, hcid⟩ := ih .child en.last_workspace_id _ c (by simp) h
            refine ⟨curr :: l0, by simp [purePath, ht, hl, h0], ?_⟩
            rw [hcid]
            cases acc <;> simp [accIds, chainIds]

theorem pure_to_loop (fs : FS) :
    ∀ n curr l, purePath fs n curr = some l →
      ∀ ct acc, ct ≠ .root →
        ∃ c, branch_loop fs (n + 1) ct curr acc = .ok c ∧
          chainIds c = l.reverse ++ accIds acc := by
  intro n
  induction n with
  | zero => intro curr l h; simp [purePath] at h
  | succ n ih =>
    intro curr l h ct acc hct
    cases ct with
    | root => exact absurd rfl hct
    | child =>
      cases ht : get_node_type fs curr with
      | error e => simp [purePath, ht] at h
      | ok t =>
        cases t with
        | root =>
          simp only [purePath, ht, Option.some.injEq] at h
          subst h
          rw [branch_loop, ht]
          simp only [ok_bind]
          rw [branch_loop]
          cases acc with
          | none => exact ⟨.last curr .root none, rfl, rfl⟩
          | some c0 => exact ⟨.node curr .root none c0, rfl, by simp [chainIds, accIds]⟩
        | child =>
          cases hl : get_node_log fs curr with
          | error e => simp [purePath, ht, hl] at h
          | ok en =>
            simp only [purePath, ht, hl] at h
            obtain ⟨l0, h0, hxl⟩ := Option.map_eq_some'.mp h
            subst hxl
            obtain ⟨c, hc, hcid⟩ := ih en.last_workspace_id l0 h0 .child
              (some (match acc with
                | none => Chain.last curr .child (some en)
                | some c0 => Chain.node curr .child (some en) c0)) (by simp)
            refine ⟨c, ?_, ?_⟩
            · rw [branch_loop, ht]
              simp only [ok_bind, Except.map]
              rw [hl]
              exact hc
            · rw [hcid]
              cases acc <;> simp [accIds, chainIds]

theorem branch_loop_maxdepth (fs : FS) :
    ∀ n x ct acc, ct ≠ .root → allChildren fs n x = true →
      resolves fs (iterChild fs n x) = true →
      branch_loop fs (n + 1) ct x acc =
        .error "Max depth reached while scanning for root" := by
  intro n
  induction n with
  | zero =>
    intro x ct acc hct _ hres
    cases ct with
    | root => exact absurd rfl hct
    | child =>
      rw [branch_loop]
      cases ht : get_node_type fs x with
      | error e => simp [resolves, iterChild, ht] at hres
      | ok t =>
        simp only [ok_bind]
        cases t with
        | root => rw [branch_loop]
        | child =>
          cases hl : get_node_log fs x with
          | error e => simp [resolves, iterChild, ht, hl] at hres
          | ok en =>
            simp only [Except.map, hl, ok_bind]
            rw [branch_loop]
  | succ n ih =>
    intro x ct acc hct hall hres
    cases ct with
    | root => exact absurd rfl hct
    | child =>
      cases ht : get_node_type fs x with
      | error e => simp [allChildren, ht] at hall
      | ok t =>
        cases t with
        | root => simp [allChildren, ht] at hall
        | child =>
          cases hl : get_node_log fs x with
          | error e => simp [allChildren, ht, hl] at hall
          | ok en =>
            have hall' : allChildren fs n en.last_workspace_id = true := by
              simpa [allChildren, ht, hl] using hall
            have hres' : resolves fs (iterChild fs n en.last_workspace_id) = true := by
              simpa [iterChild, ht, hl] using hres
            rw [branch_loop, ht]
            simp only [ok_bind, Except.map]
            rw [hl]
            simp only [ok_bind]
            exact ih en.last_workspace_id .child _ (by simp) hall' hres'

/-! ### The deep chain `fsB` -/

theorem all_replicate_a (m : Nat) :
    (List.replicate m 'a').all (fun c => c == 'a') = true := by
  induction m with
  | zero => rfl
  | succ m ih => simp [List.replicate_succ, List.all_cons, ih]

theorem fsB_child (m : Nat) (hm : m < 999) :
    fsB (aId m) =
      some { ptr := "x"
             toolCall := some (create_log_entry (aId (m + 1)) (aId m) "t" [] []) } := by
  have hdata : (aId m).data = List.replicate m 'a' := rfl
  simp only [fsB, hdata, all_replicate_a, List.length_replicate, if_true]
  rw [if_pos hm]

theorem fsB_root : fsB (aId 999) = some { ptr := "root", toolCall := none } := by
  have hdata : (aId 999).data = List.replicate 999 'a' := rfl
  simp only [fsB, hdata, all_replicate_a, List.length_replicate, if_true]
  rw [if_neg (by omega)]

theorem fsB_type_child (m : Nat) (hm : m < 999) :
    get_node_type fsB (aId m) = .ok .child := by
  simp [get_node_type, fsB_child m hm]

theorem fsB_log_child (m : Nat) (hm : m < 999) :
    get_node_log fsB (aId m) = .ok (create_log_entry (aId (m + 1)) (aId m) "t" [] []) := by
  simp [get_node_log, fsB_child m hm]

theorem fsB_allChildren : ∀ k m, m + k ≤ 999 → allChildren fsB k (aId m) = true := by
  intro k
  induction k with
  | zero => intro m _; rfl
  | succ k ih =>
    intro m hm
    have hm' : m < 999 := by omega
    simp only [allChildren, fsB_type_child m hm', fsB_log_child m hm', create_log_entry]
    exact ih (m + 1) (by omega)

theorem fsB_iterChild : ∀ k m, m + k ≤ 999 → iterChild fsB k (aId m) = aId (m + k) := by
  intro k
  induction k with
  | zero => intro m _; rfl
  | succ k ih =>
    intro m hm
    have hm' : m < 999 := by omega
    simp only [iterChild, fsB_type_child m hm', fsB_log_child m hm', create_log_entry]
    rw [ih (m + 1) (by omega)]
    congr 1
    omega

theorem fsB_resolves : resolves fsB (aId 999) = true := by
  simp [resolves, get_node_type, fsB_root]

theorem fsB_pure : ∀ k m, m + k = 999 → ∃ l, purePath fsB (k + 1) (aId m) = some l := by
  intro k
  induction k with
  | zero =>
    intro m hm
    obtain rfl : m = 999 := by omega
    exact ⟨[aId 999], by simp [purePath, get_node_type, fsB_root]⟩
  | succ k ih =>
    intro m hm
    have hm' : m < 999 := by omega
    obtain ⟨l, hl⟩ := ih (m + 1) (by omega)
    refine ⟨aId m :: l, ?_⟩
    rw [purePath]
    simp only [fsB_type_child m hm', fsB_log_child m hm', create_log_entry, hl,
      Option.map_some']

/-! ### Claims C7 and C8 -/

/-- C7: for every non-root workspace `w`, running `_traverse_branch` on any
descendant `d` of `w` (backwards reachability through the recorded parent
ids) that returns a chain yields a root-first chain containing `w` exactly
once. -/
theorem claim_C7 (fs : FS) (w d : String) (c : Chain)
    (_hw : get_node_type fs w = .ok .child)
    (hAnc : Relation.ReflTransGen (parentStep fs) d w)
    (hrun : traverse_branch fs d = .ok c) :
    (chainIds c).count w = 1 := by
  obtain ⟨l, hl, hc⟩ := branch_loop_pure fs MAX_DEPTH .child d none c (by decide) hrun
  have hmem : w ∈ l := pure_anc_mem fs d w hAnc MAX_DEPTH l hl
  have hnd : l.Nodup := pure_nodup fs MAX_DEPTH d l hl
  rw [hc]
  simp only [accIds, List.append_nil]
  rw [(l.reverse_perm).count_eq]
  exact List.count_eq_one_of_mem hnd hmem

/-- Witness for C7 on the concrete lineage `fsA`: `a` is a non-root ancestor
of leaf `b`, and the chain returned for `b` contains `a` exactly once. -/
theorem claim_C7_witness : (chainIds chainABC).count "a" = 1 :=
  claim_C7 fsA "a" "b" chainABC (by decide)
    (Relation.ReflTransGen.single
      ⟨by decide, create_log_entry "a" "b" "unknown" [] [], by decide, rfl⟩)
    (by decide)

/-- C8 (counterexample): on the 1000-workspace straight chain `fsB`, the
backward walk from the leaf does find a root pointer within its
`MAX_DEPTH = 1000` visited nodes (at the 1000th node), yet `_traverse_branch`
still raises the max-depth error, because the depth check fires at
`tot_depth >= 1000` even when the node just processed was the root. -/
theorem claim_C8_counterexample :
    (∃ l, purePath fsB 1000 (aId 0) = some l) ∧
    traverse_branch fsB (aId 0) = .error "Max depth reached while scanning for root" :=
  ⟨fsB_pure 999 0 rfl,
   branch_loop_maxdepth fsB 999 (aId 0) .child none (by simp)
     (fsB_allChildren 999 0 (by omega))
     (by rw [fsB_iterChild 999 0 (by omega)]; exact fsB_resolves)⟩

/-- C8 (amended): `_traverse_branch` is total — the loop visits at most
`MAX_DEPTH` nodes.  When the walk reaches a root within 999 visited nodes it
returns the ancestor chain ordered from the root to the given leaf (the
reverse of the visit order); when the first 999 visited nodes all resolve as
non-root children (and the 1000th visited node resolves at all), it raises
the max-depth error — in particular a lineage whose root sits exactly at the
1000th node still raises, so the error is not equivalent to "no root within
the 1000-node bound". -/
theorem claim_C8 (fs : FS) (leaf : String) :
    (∀ l, purePath fs 999 leaf = some l →
      ∃ c, traverse_branch fs leaf = .ok c ∧ chainIds c = l.reverse) ∧
    (allChildren fs 999 leaf = true → resolves fs (iterChild fs 999 leaf) = true →
      traverse_branch fs leaf = .error "Max depth reached while scanning for root") := by
  constructor
  · intro l hl
    obtain ⟨c, hc, hids⟩ := pure_to_loop fs 999 leaf l hl .child none (by simp)
    exact ⟨c, hc, by simpa [accIds] using hids⟩
  · intro hall hres
    exact branch_loop_maxdepth fs 999 leaf .child none (by simp) hall hres

/-- Witness for C8: on `fsA` the walk from `b` meets the root within 999
nodes and returns the chain `[r, a, b]`; on the 1000-deep chain `fsB` the
first 999 nodes are all children, the 1000th resolves, and the walk raises. -/
theorem claim_C8_witness :
    (∃ c, traverse_branch fsA "b" = .ok c ∧ chainIds c = ["b", "a", "r"].reverse) ∧
    traverse_branch fsB (aId 0) = .error "Max depth reached while scanning for root" :=
  ⟨(claim_C8 fsA "b").1 ["b", "a", "r"] (by decide),
   (claim_C8 fsB (aId 0)).2 (fsB_allChildren 999 0 (by omega))
     (by rw [fsB_iterChild 999 0 (by omega)]; exact fsB_resolves)⟩

/-! ### Lemmas for the breadth-first tree reconstruction -/

theorem check_logs_ok (fs : FS) :
    ∀ cs : List String, (∀ c ∈ cs, ∃ en, get_node_log fs c = .ok en) →
      check_logs fs cs = .ok () := by
  intro cs
  induction cs with
  | nil => intro _; rfl
  | cons c cs ih =>
    intro h
    obtain ⟨en, hen⟩ := h c (List.mem_cons_self c cs)
    simp only [check_logs, hen, ok_bind]
    exact ih fun c' hc' => h c' (List.mem_cons_of_mem c hc')

theorem mem_adj (E : List (String × String)) (x c : String) :
    c ∈ adj E x ↔ (x, c) ∈ E := by
  simp only [adj, List.mem_map, List.mem_filter]
  constructor
  · rintro ⟨e, ⟨heE, hex⟩, hec⟩
    have : e = (x, c) := by
      cases e
      simp_all
    exact this ▸ heE
  · intro h
    exact ⟨(x, c), ⟨h, by simp⟩, rfl⟩

theorem adj_nodup (E : List (String × String)) (x : String)
    (hchE : (E.map Prod.snd).Nodup) : (adj E x).Nodup :=
  ((List.filter_sublist E).map Prod.snd).nodup hchE

theorem nodup_subset_length {α : Type} {l₁ l₂ : List α} (h : l₁.Nodup) (hs : l₁ ⊆ l₂) :
    l₁.length ≤ l₂.length :=
  (List.subperm_of_subset h hs).length_le

theorem key_unique {α β : Type} [DecidableEq α] [DecidableEq β]
    (ws : List (α × β)) (h : (ws.map Prod.fst).Nodup)
    (a : α) (b c : β) (hb : (a, b) ∈ ws) (hc : (a, c) ∈ ws) : b = c := by
  have := List.inj_on_of_nodup_map h hb hc rfl
  exact congrArg Prod.snd this

theorem build_adj_filterMap :
    ∀ l : List (String × WDir),
      (∀ p ∈ l, p.2.ptr = "root" ∨ ∃ pc, parsePtr p.2.ptr = some pc) →
      build_adj (l.map (fun p => p.2.ptr)) =
        .ok (l.filterMap (fun q => parsePtr q.2.ptr)) := by
  intro l
  induction l with
  | nil => intro _; rfl
  | cons p l ih =>
    intro h
    have htail := ih fun q hq => h q (List.mem_cons_of_mem p hq)
    rcases h p (List.mem_cons_self p l) with hroot | ⟨pc, hpc⟩
    · have hnone : parsePtr p.2.ptr = none := by rw [hroot]; rfl
      simp only [List.map_cons, build_adj, hroot, if_pos rfl, List.filterMap_cons, hnone]
      exact htail
    · have hne : p.2.ptr ≠ "root" := by
        intro h'
        rw [h'] at hpc
        exact Option.noConfusion ((rfl : parsePtr "root" = none) ▸ hpc)
      simp only [List.map_cons, build_adj, if_neg hne, hpc, List.filterMap_cons, htail,
        Except.map]

/-- Invariant-carrying induction for the BFS of `_traverse_tree`.
`processed` are the dequeued ids, `todo` the queue, `processed ++ todo` the
insertion-order key list of `node_data`, and `eds` the edges materialised so
far.  Under a storage area whose edges have distinct children, none of them
the root, and readable audit entries, the BFS terminates within the fuel and
returns a duplicate-free node list of shape `root :: children(eds)` that is
closed under adjacency. -/
theorem bfs_master (fs : FS) (E : List (String × String)) (root : String)
    (hchE : (E.map Prod.snd).Nodup)
    (hrootE : root ∉ E.map Prod.snd)
    (hlog : ∀ c ∈ E.map Prod.snd, ∃ en, get_node_log fs c = .ok en) :
    ∀ (n : Nat) (todo processed : List String) (eds : List (String × String)),
      processed ++ todo = root :: eds.map Prod.snd →
      (processed ++ todo).Nodup →
      (∀ e ∈ eds, e ∈ E ∧ e.1 ∈ processed) →
      (∀ x ∈ processed, ∀ c ∈ adj E x, (x, c) ∈ eds) →
      todo.length + 2 * (E.length - eds.length) + 1 ≤ n →
      ∃ v e', bfs_aux fs E n todo (processed ++ todo) eds = .ok (v, e') ∧
        (∃ t, v = (processed ++ todo) ++ t) ∧
        v = root :: e'.map Prod.snd ∧
        v.Nodup ∧
        (∀ e ∈ e', e ∈ E) ∧
        (∀ x ∈ v, ∀ c ∈ adj E x, (x, c) ∈ e') := by
  intro n
  induction n with
  | zero => intro todo processed eds _ _ _ _ hfuel; omega
  | succ n ih =>
    intro todo processed eds hshape hnd heds hproc hfuel
    cases todo with
    | nil =>
      refine ⟨processed ++ [], eds, rfl, ⟨[], by simp⟩, hshape, hnd,
        fun e he => (heds e he).1, ?_⟩
      intro x hx c hc
      exact hproc x (by simpa using hx) c hc
    | cons x₀ rest =>
      have hndsplit := List.nodup_append.mp hnd
      obtain ⟨hndp, hndt, hdisj⟩ := hndsplit
      have hx₀ : x₀ ∉ processed := fun h => hdisj h (List.mem_cons_self _ _)
      have hcsE : ∀ c ∈ adj E x₀, (x₀, c) ∈ E := fun c hc => (mem_adj E x₀ c).mp hc
      have hlogs : check_logs fs (adj E x₀) = .ok () :=
        check_logs_ok fs _ fun c hc => hlog c (List.mem_map.mpr ⟨(x₀, c), hcsE c hc, rfl⟩)
      have hdisj_cs : ∀ c ∈ adj E x₀, c ∉ processed ++ x₀ :: rest := by
        intro c hc hcv
        rw [hshape] at hcv
        rcases List.mem_cons.mp hcv with rfl | hcv'
        · exact hrootE (List.mem_map.mpr ⟨(x₀, c), hcsE c hc, rfl⟩)
        · obtain ⟨e, he, hesnd⟩ := List.mem_map.mp hcv'
          have heq : e = (x₀, c) :=
            List.inj_on_of_nodup_map hchE ((heds e he).1) (hcsE c hc) (by simp [hesnd])
          have hmem := (heds e he).2
          rw [heq] at hmem
          exact hx₀ hmem
      have hshape' : (processed ++ [x₀]) ++ (rest ++ adj E x₀) =
          root :: (eds ++ (adj E x₀).map (fun c => (x₀, c))).map Prod.snd := by
        have h1 : (processed ++ [x₀]) ++ (rest ++ adj E x₀) =
            (processed ++ x₀ :: rest) ++ adj E x₀ := by simp
        rw [h1, hshape]
        simp [List.map_map, Function.comp_def]
      have hnd_new : ((processed ++ [x₀]) ++ (rest ++ adj E x₀)).Nodup := by
        have h1 : (processed ++ [x₀]) ++ (rest ++ adj E x₀) =
            (processed ++ x₀ :: rest) ++ adj E x₀ := by simp
        rw [h1, List.nodup_append]
        exact ⟨hnd, adj_nodup E x₀ hchE, fun a ha hcs => hdisj_cs a hcs ha⟩
      have heds' : ∀ e ∈ eds ++ (adj E x₀).map (fun c => (x₀, c)),
          e ∈ E ∧ e.1 ∈ processed ++ [x₀] := by
        intro e he
        rcases List.mem_append.mp he with he | he
        · exact ⟨(heds e he).1, List.mem_append_left _ (heds e he).2⟩
        · obtain ⟨c, hc, rfl⟩ := List.mem_map.mp he
          exact ⟨hcsE c hc, List.mem_append_right _ (List.mem_singleton.mpr rfl)⟩
      have hproc' : ∀ x ∈ processed ++ [x₀], ∀ c ∈ adj E x,
          (x, c) ∈ eds ++ (adj E x₀).map (fun c => (x₀, c)) := by
        intro x hx c hc
        rcases List.mem_append.mp hx with hx | hx
        · exact List.mem_append_left _ (hproc x hx c hc)
        · rcases List.mem_singleton.mp hx with rfl
          exact List.mem_append_right _ (List.mem_map.mpr ⟨c, hc, rfl⟩)
      have hnd_eds' : (eds ++ (adj E x₀).map (fun c => (x₀, c))).Nodup := by
        have h1 := hnd_new
        rw [hshape'] at h1
        exact List.Nodup.of_map Prod.snd (List.nodup_cons.mp h1).2
      have hlen' : (eds ++ (adj E x₀).map (fun c => (x₀, c))).length ≤ E.length :=
        nodup_subset_length hnd_eds' fun e he => (heds' e he).1
      have hfuel' : (rest ++ adj E x₀).length +
          2 * (E.length - (eds ++ (adj E x₀).map (fun c => (x₀, c))).length) + 1 ≤ n := by
        have h1 : (eds ++ (adj E x₀).map (fun c => (x₀, c))).length =
            eds.length + (adj E x₀).length := by simp
        have h2 : (rest ++ adj E x₀).length = rest.length + (adj E x₀).length := by simp
        have h3 : (x₀ :: rest).length = rest.length + 1 := by simp
        omega
      obtain ⟨v, e', hrun, hpre, hsh, hnodup, hE', hclo⟩ :=
        ih (rest ++ adj E x₀) (processed ++ [x₀])
          (eds ++ (adj E x₀).map (fun c => (x₀, c))) hshape' hnd_new heds' hproc' hfuel'
      refine ⟨v, e', ?_, ?_, hsh, hnodup, hE', hclo⟩
      · have harg : (processed ++ x₀ :: rest) ++ adj E x₀ =
            (processed ++ [x₀]) ++ (rest ++ adj E x₀) := by simp
        simp only [bfs_aux, hlogs, ok_bind]
        rw [harg]
        exact hrun
      · obtain ⟨t, ht⟩ := hpre
        refine ⟨adj E x₀ ++ t, ?_⟩
        rw [ht]
        simp

theorem children_eq (root : String) :
    ∀ l : List (String × WDir),
      (∀ p ∈ l, (p.1 = root → parsePtr p.2.ptr = none) ∧
        (p.1 ≠ root → ∃ q, parsePtr p.2.ptr = some (q, p.1))) →
      (l.filterMap (fun q => parsePtr q.2.ptr)).map Prod.snd =
        (l.filter (fun p => decide (p.1 ≠ root))).map Prod.fst := by
  intro l
  induction l with
  | nil => intro _; rfl
  | cons p l ih =>
    intro h
    have htail := ih fun q hq => h q (List.mem_cons_of_mem p hq)
    by_cases hp : p.1 = root
    · have hnone := (h p (List.mem_cons_self p l)).1 hp
      simp [List.filterMap_cons, hnone, List.filter_cons, hp, htail]
    · obtain ⟨q, hq⟩ := (h p (List.mem_cons_self p l)).2 hp
      simp [List.filterMap_cons, hq, List.filter_cons, hp, htail]

/-- C6: on a storage area holding the pointer records of one rooted lineage
(distinct workspace ids; the root's pointer reads `root`; every other
workspace's pointer encodes an edge ending in its own id; every workspace
reachable from the root along those edges), `_traverse_tree` applied to the
root succeeds and reconstructs a tree whose node set is exactly the set of
workspaces — each exactly once — and whose parent-to-child edges are exactly
the edges encoded in the `workspace_pointer.txt` files. -/
theorem claim_C6 (fs : FS) (ws : List (String × WDir)) (root : String) (dr : WDir)
    (hids : (ws.map Prod.fst).Nodup)
    (hfs : ∀ p ∈ ws, fs p.1 = some p.2)
    (hroot_mem : (root, dr) ∈ ws) (hroot_ptr : dr.ptr = "root")
    (hchild : ∀ p ∈ ws, p.1 ≠ root → ∃ q, parsePtr p.2.ptr = some (q, p.1))
    (hreach : ∀ p ∈ ws, Relation.ReflTransGen
        (fun a b => (a, b) ∈ ws.filterMap (fun q => parsePtr q.2.ptr)) root p.1) :
    ∃ vis eds, traverse_tree fs (ws.map (fun p => p.2.ptr)) root = .ok (vis, eds) ∧
      vis.Perm (ws.map Prod.fst) ∧
      eds.Perm (ws.filterMap (fun q => parsePtr q.2.ptr)) := by
  set E := ws.filterMap (fun q => parsePtr q.2.ptr) with hEdef
  have hrootptr_all : ∀ p ∈ ws, p.1 = root → p.2.ptr = "root" := by
    rintro ⟨p1, p2⟩ hp hp1
    simp only at hp1
    subst hp1
    rw [key_unique ws hids p1 p2 dr hp hroot_mem]
    exact hroot_ptr
  have hpoint : ∀ p ∈ ws, (p.1 = root → parsePtr p.2.ptr = none) ∧
      (p.1 ≠ root → ∃ q, parsePtr p.2.ptr = some (q, p.1)) := by
    intro p hp
    refine ⟨fun h1 => ?_, hchild p hp⟩
    rw [hrootptr_all p hp h1]
    decide
  have hadj : build_adj (ws.map (fun p => p.2.ptr)) = .ok E := by
    refine build_adj_filterMap ws fun p hp => ?_
    by_cases h : p.1 = root
    · exact Or.inl (hrootptr_all p hp h)
    · obtain ⟨q, hq⟩ := hchild p hp h
      exact Or.inr ⟨(q, p.1), hq⟩
  have hkids : E.map Prod.snd = (ws.filter (fun p => decide (p.1 ≠ root))).map Prod.fst :=
    children_eq root ws hpoint
  have hchE : (E.map Prod.snd).Nodup := by
    rw [hkids]
    exact ((List.filter_sublist ws).map Prod.fst).nodup hids
  have hrootE : root ∉ E.map Prod.snd := by
    rw [hkids]
    intro hmem
    obtain ⟨p, hpf, hp1⟩ := List.mem_map.mp hmem
    have hflt := List.mem_filter.mp hpf
    exact absurd hp1 (by simpa using hflt.2)
  have hlogE : ∀ c ∈ E.map Prod.snd, ∃ en, get_node_log fs c = .ok en := by
    intro c hc
    rw [hkids] at hc
    obtain ⟨p, hpf, hp1⟩ := List.mem_map.mp hc
    have hpw : p ∈ ws := (List.mem_filter.mp hpf).1
    have hpne : p.1 ≠ root := by simpa using (List.mem_filter.mp hpf).2
    have hfsp := hfs p hpw
    subst hp1
    cases htc : p.2.toolCall with
    | some tc => exact ⟨tc, by simp [get_node_log, hfsp, htc]⟩
    | none =>
      obtain ⟨q, hq⟩ := hchild p hpw hpne
      exact ⟨create_log_entry q p.1 "unknown" [] [], by simp [get_node_log, hfsp, htc, hq]⟩
  have htype : get_node_type fs root = .ok .root := by
    have hfr := hfs (root, dr) hroot_mem
    simp [get_node_type, hfr, hroot_ptr]
  obtain ⟨v, e', hrun, _, hsh, hnodup, hE', hclo⟩ :=
    bfs_master fs E root hchE hrootE hlogE (2 * E.length + 2) [root] [] []
      (by simp) (by simp) (by simp) (by simp) (by simp; omega)
  have hreach_v : ∀ a, Relation.ReflTransGen (fun a b => (a, b) ∈ E) root a → a ∈ v := by
    intro a ha
    induction ha with
    | refl => rw [hsh]; exact List.mem_cons_self _ _
    | tail hsteps hstep ihv =>
      rw [hsh]
      refine List.mem_cons_of_mem _ (List.mem_map.mpr ⟨_, hclo _ ihv _ ((mem_adj E _ _).mpr hstep), rfl⟩)
  have hv_sub : ∀ a, a ∈ v → a ∈ ws.map Prod.fst := by
    intro a hav
    rw [hsh] at hav
    rcases List.mem_cons.mp hav with ha | hav'
    · rw [ha]
      exact List.mem_map.mpr ⟨(root, dr), hroot_mem, rfl⟩
    · obtain ⟨e, hee, hsnd⟩ := List.mem_map.mp hav'
      have hsndE : e.2 ∈ E.map Prod.snd := List.mem_map.mpr ⟨e, hE' e hee, rfl⟩
      rw [hkids] at hsndE
      obtain ⟨p, hpf, hp1⟩ := List.mem_map.mp hsndE
      rw [← hsnd, ← hp1]
      exact List.mem_map.mpr ⟨p, (List.mem_filter.mp hpf).1, rfl⟩
  have hid_sub : ∀ a, a ∈ ws.map Prod.fst → a ∈ v := by
    intro a hai
    obtain ⟨p, hpw, hp1⟩ := List.mem_map.mp hai
    subst hp1
    exact hreach_v p.1 (hreach p hpw)
  have hEe' : ∀ e, e ∈ E → e ∈ e' := by
    intro e heE
    have hsndE : e.2 ∈ E.map Prod.snd := List.mem_map.mpr ⟨e, heE, rfl⟩
    have hne_root : e.2 ≠ root := fun h => hrootE (h ▸ hsndE)
    have hsnd_id : e.2 ∈ ws.map Prod.fst := by
      rw [hkids] at hsndE
      obtain ⟨p, hpf, hp1⟩ := List.mem_map.mp hsndE
      rw [← hp1]
      exact List.mem_map.mpr ⟨p, (List.mem_filter.mp hpf).1, rfl⟩
    obtain ⟨p, hpw, hp1⟩ := List.mem_map.mp hsnd_id
    have hrtg := hreach p hpw
    rw [hp1] at hrtg
    rcases Relation.ReflTransGen.cases_tail hrtg with heq | ⟨b, hrtg_b, hstep⟩
    · exact absurd heq hne_root
    · have heq : (b, e.2) = e := List.inj_on_of_nodup_map hchE hstep heE rfl
      have hmem := hclo b (hreach_v b hrtg_b) e.2 ((mem_adj E b e.2).mpr hstep)
      rw [heq] at hmem
      exact hmem
  have hnd_e' : e'.Nodup := by
    have h1 := hnodup
    rw [hsh] at h1
    exact List.Nodup.of_map Prod.snd (List.nodup_cons.mp h1).2
  have hnd_E : E.Nodup := List.Nodup.of_map Prod.snd hchE
  refine ⟨v, e', ?_, ?_, ?_⟩
  · simp only [traverse_tree, htype, ok_bind, hadj]
    exact hrun
  · exact (List.perm_ext_iff_of_nodup hnodup hids).mpr fun a => ⟨hv_sub a, hid_sub a⟩
  · exact (List.perm_ext_iff_of_nodup hnd_e' hnd_E).mpr fun e => ⟨hE' e, hEe' e⟩

/-- Witness for C6 on the concrete three-workspace lineage `fsA` (root `r`,
child `a`, grandchild `b`): the traversal succeeds, its node list is a
permutation of the three workspace ids and its edge list a permutation of
the two pointer-record edges. -/
theorem claim_C6_witness :
    ∃ vis eds,
      traverse_tree fsA ["root", "\"r\"->\"a\"", "\"a\"->\"b\""] "r" = .ok (vis, eds) ∧
      vis.Perm ["r", "a", "b"] ∧
      eds.Perm [("r", "a"), ("a", "b")] := by
  exact claim_C6 fsA
    [("r", { ptr := "root", toolCall := none }),
     ("a", { ptr := "\"r\"->\"a\""
             toolCall := some (create_log_entry "r" "a" "cmd_rpart" [] []) }),
     ("b", { ptr := "\"a\"->\"b\"", toolCall := none })]
    "r" { ptr := "root", toolCall := none }
    (by decide) (by decide) (by decide) rfl
    (by
      intro p hp hne
      simp only [List.mem_cons, List.not_mem_nil, or_false] at hp
      rcases hp with rfl | rfl | rfl
      · exact absurd rfl hne
      · exact ⟨"r", by decide⟩
      · exact ⟨"a", by decide⟩)
    (by
      intro p hp
      simp only [List.mem_cons, List.not_mem_nil, or_false] at hp
      rcases hp with rfl | rfl | rfl
      · exact Relation.ReflTransGen.refl
      · exact Relation.ReflTransGen.single (by decide)
      · exact @Relation.ReflTransGen.head String _ "r" "a" "b" (by decide)
          (Relation.ReflTransGen.single (by decide)))

end ILEC
